import Mathlib

/-!
Shallow embedding of the ctapipe ground-frame transformations
(src/ctapipe/coordinates/ground_frames.py) and of the two Hillas parameter
routines (src/ctapipe/reco/hillas.py), together with theorems settling the
specification claims C1 - C10.

Conventions of the embedding:
* numpy float64 arithmetic is modelled by exact real arithmetic;
* numpy division is total; Lean's convention x / 0 = 0 stands in for the
  NaN / inf results that numpy produces (with a RuntimeWarning) without
  raising an exception;
* np.sqrt is modelled by Real.sqrt (which returns 0 on negative arguments);
* np.arctan2 y x is modelled by Complex.arg (x + y i), np.hypot by
  Real.sqrt (x^2 + y^2), np.arcsin by Real.arcsin;
* a family of parallel numpy arrays of one common length n is modelled by
  functions Fin n -> R;
* the assert statements guarding the array shapes are modelled by
  Except-valued wrappers that return an error exactly on a shape mismatch,
  and otherwise the result record of the pure computation.

Every definition mirrors, line by line, the variable of the same name in the
Python source; the intermediate quantities of each routine are top-level
definitions (namespaces H1 and H2 for hillas_parameters and
hillas_parameters_2 respectively) so that the theorems can speak about them
directly.
-/

namespace Ctapipe

noncomputable section

open Real

/-! ## ground_frames.py -/

/-- Embedding of get_shower_trans_matrix (ground_frames.py lines 81-117).
The local python variables are cos_z = sin(altitude), sin_z = cos(altitude),
cos_az = cos(azimuth), sin_az = sin(azimuth), and trans[r][c] is row r,
column c of the returned 3x3 array. -/
def get_shower_trans_matrix (azimuth altitude : ℝ) : Matrix (Fin 3) (Fin 3) ℝ :=
  let cos_z := Real.sin altitude
  let sin_z := Real.cos altitude
  let cos_az := Real.cos azimuth
  let sin_az := Real.sin azimuth
  Matrix.of
    ![![cos_z * cos_az, -(cos_z * sin_az), -sin_z],
      ![sin_az, cos_az, 0],
      ![sin_z * cos_az, -(sin_z * sin_az), cos_z]]

/-- Embedding of ground_to_tilted (ground_frames.py lines 122-151): the first
two rows of the transformation matrix applied to a 3-d ground point. -/
def ground_to_tilted (azimuth altitude : ℝ) (p : ℝ × ℝ × ℝ) : ℝ × ℝ :=
  let trans := get_shower_trans_matrix azimuth altitude
  (trans 0 0 * p.1 + trans 0 1 * p.2.1 + trans 0 2 * p.2.2,
   trans 1 0 * p.1 + trans 1 1 * p.2.1 + trans 1 2 * p.2.2)

/-- Embedding of tilted_to_ground (ground_frames.py lines 156-187): the
transpose relation recovering the 3-d embedding of a tilted-plane point. -/
def tilted_to_ground (azimuth altitude : ℝ) (q : ℝ × ℝ) : ℝ × ℝ × ℝ :=
  let trans := get_shower_trans_matrix azimuth altitude
  (trans 0 0 * q.1 + trans 1 0 * q.2,
   trans 0 1 * q.1 + trans 1 1 * q.2,
   trans 0 2 * q.1 + trans 1 2 * q.2)

/-- Embedding of project_to_ground (ground_frames.py lines 190-220): embed the
tilted point into 3-d ground coordinates, then slide along the pointing axis
until the z coordinate is zero, dividing by trans[2][2]. -/
def project_to_ground (azimuth altitude : ℝ) (q : ℝ × ℝ) : ℝ × ℝ × ℝ :=
  let trans := get_shower_trans_matrix azimuth altitude
  let g := tilted_to_ground azimuth altitude q
  (g.1 - trans 2 0 * g.2.2 / trans 2 2,
   g.2.1 - trans 2 1 * g.2.2 / trans 2 2,
   0)

/-! ## hillas.py -/

/-- np.arctan2 y x, modelled as the argument of the complex number x + y i,
which matches arctan2 on every quadrant and on the axes. -/
def atan2 (y x : ℝ) : ℝ := Complex.arg ⟨x, y⟩

/-- np.hypot. -/
def hypot (x y : ℝ) : ℝ := Real.sqrt (x ^ 2 + y ^ 2)

/-- The dict returned by hillas_parameters (hillas.py lines 77-88), one field
per key. -/
structure Hillas1Result where
  x : ℝ
  y : ℝ
  a : ℝ
  b : ℝ
  width : ℝ
  length : ℝ
  miss : ℝ
  r : ℝ
  azwidth : ℝ

/-- The dict returned by hillas_parameters_2 (hillas.py lines 146-148), one
field per key. -/
structure Hillas2Result where
  size : ℝ
  cx : ℝ
  cy : ℝ
  length : ℝ
  width : ℝ
  distance : ℝ
  azwidth : ℝ
  psi : ℝ
  phi : ℝ
  alpha : ℝ

/-! Namespace H1 embeds, one definition per local python variable, the body
of hillas_parameters (hillas.py lines 16-88), for parallel arrays
x, y, s : Fin n -> R of one common length n. -/
namespace H1

variable {n : ℕ}

/-- line 44: the total intensity np.sum(s). -/
def _s (s : Fin n → ℝ) : ℝ := ∑ i, s i

/-- line 45. -/
def m_x (x s : Fin n → ℝ) : ℝ := (∑ i, s i * x i) / _s s

/-- line 46. -/
def m_y (y s : Fin n → ℝ) : ℝ := (∑ i, s i * y i) / _s s

/-- line 47. -/
def m_xx (x s : Fin n → ℝ) : ℝ := (∑ i, s i * x i * x i) / _s s

/-- line 48. -/
def m_yy (y s : Fin n → ℝ) : ℝ := (∑ i, s i * y i * y i) / _s s

/-- line 49. -/
def m_xy (x y s : Fin n → ℝ) : ℝ := (∑ i, s i * x i * y i) / _s s

/-- line 52. -/
def S_xx (x s : Fin n → ℝ) : ℝ := m_xx x s - m_x x s * m_x x s

/-- line 53. -/
def S_yy (y s : Fin n → ℝ) : ℝ := m_yy y s - m_y y s * m_y y s

/-- line 54. -/
def S_xy (x y s : Fin n → ℝ) : ℝ := m_xy x y s - m_x x s * m_y y s

/-- line 55. -/
def d (x y s : Fin n → ℝ) : ℝ := S_yy y s - S_xx x s

/-- line 56. -/
def temp (x y s : Fin n → ℝ) : ℝ :=
  d x y s * d x y s + 4 * S_xy x y s * S_xy x y s

/-- line 57: the slope of the major-axis line. -/
def a (x y s : Fin n → ℝ) : ℝ :=
  (d x y s + Real.sqrt (temp x y s)) / (2 * S_xy x y s)

/-- line 58: the intercept of the major-axis line. -/
def b (x y s : Fin n → ℝ) : ℝ := m_y y s - a x y s * m_x x s

/-- line 61. -/
def width_2 (x y s : Fin n → ℝ) : ℝ :=
  (S_yy y s + a x y s * a x y s * S_xx x s - 2 * a x y s * S_xy x y s) /
    (1 + a x y s * a x y s)

/-- line 62. -/
def width (x y s : Fin n → ℝ) : ℝ := Real.sqrt (width_2 x y s)

/-- line 63. -/
def length_2 (x y s : Fin n → ℝ) : ℝ :=
  (S_xx x s + a x y s * a x y s * S_yy y s + 2 * a x y s * S_xy x y s) /
    (1 + a x y s * a x y s)

/-- line 64. -/
def length (x y s : Fin n → ℝ) : ℝ := Real.sqrt (length_2 x y s)

/-- line 65: np.abs(b / (1 + a * a)).  Note: the divisor in the source is
1 + a*a, not sqrt(1 + a*a). -/
def miss (x y s : Fin n → ℝ) : ℝ := |b x y s / (1 + a x y s * a x y s)|

/-- line 66. -/
def r (x y s : Fin n → ℝ) : ℝ :=
  Real.sqrt (m_x x s * m_x x s + m_y y s * m_y y s)

/-- line 69. -/
def sin_theta (x y s : Fin n → ℝ) : ℝ := m_y y s / r x y s

/-- line 70. -/
def cos_theta (x y s : Fin n → ℝ) : ℝ := m_x x s / r x y s

/-- line 71: the per-pixel rotated coordinate q. -/
def q (x y s : Fin n → ℝ) (i : Fin n) : ℝ :=
  (m_x x s - x i) * sin_theta x y s + (y i - m_y y s) * cos_theta x y s

/-- line 72. -/
def m_q (x y s : Fin n → ℝ) : ℝ := (∑ i, s i * q x y s i) / _s s

/-- line 73. -/
def m_qq (x y s : Fin n → ℝ) : ℝ :=
  (∑ i, s i * q x y s i * q x y s i) / _s s

/-- line 74. -/
def azwidth_2 (x y s : Fin n → ℝ) : ℝ := m_qq x y s - m_q x y s * m_q x y s

/-- line 75. -/
def azwidth (x y s : Fin n → ℝ) : ℝ := Real.sqrt (azwidth_2 x y s)

/-- lines 77-88: the returned dict. -/
def run (x y s : Fin n → ℝ) : Hillas1Result :=
  ⟨m_x x s, m_y y s, a x y s, b x y s, width x y s, length x y s,
   miss x y s, r x y s, azwidth x y s⟩

end H1

/-! Namespace H2 embeds, one definition per local python variable, the body
of hillas_parameters_2 (hillas.py lines 91-148); moms0 .. moms4 are the five
entries of the moms array of line 111. -/
namespace H2

variable {n : ℕ}

/-- line 104. -/
def size (image : Fin n → ℝ) : ℝ := ∑ i, image i

/-- line 111, entry 0: row pix_x * image summed, over size. -/
def moms0 (pix_x image : Fin n → ℝ) : ℝ := (∑ i, pix_x i * image i) / size image

/-- line 111, entry 1. -/
def moms1 (pix_y image : Fin n → ℝ) : ℝ := (∑ i, pix_y i * image i) / size image

/-- line 111, entry 2: row pix_x * pix_x * image. -/
def moms2 (pix_x image : Fin n → ℝ) : ℝ :=
  (∑ i, pix_x i * pix_x i * image i) / size image

/-- line 111, entry 3. -/
def moms3 (pix_y image : Fin n → ℝ) : ℝ :=
  (∑ i, pix_y i * pix_y i * image i) / size image

/-- line 111, entry 4: row pix_x * pix_y * image. -/
def moms4 (pix_x pix_y image : Fin n → ℝ) : ℝ :=
  (∑ i, pix_x i * pix_y i * image i) / size image

/-- line 115. -/
def vx2 (pix_x image : Fin n → ℝ) : ℝ :=
  moms2 pix_x image - moms0 pix_x image ^ 2

/-- line 116. -/
def vy2 (pix_y image : Fin n → ℝ) : ℝ :=
  moms3 pix_y image - moms1 pix_y image ^ 2

/-- line 117. -/
def vxy (pix_x pix_y image : Fin n → ℝ) : ℝ :=
  moms4 pix_x pix_y image - moms0 pix_x image * moms1 pix_y image

/-- line 121. -/
def dd (pix_x pix_y image : Fin n → ℝ) : ℝ :=
  vy2 pix_y image - vx2 pix_x image

/-- line 122. -/
def zz (pix_x pix_y image : Fin n → ℝ) : ℝ :=
  Real.sqrt (dd pix_x pix_y image ^ 2 + 4 * vxy pix_x pix_y image ^ 2)

/-- line 126. -/
def uu (pix_x pix_y image : Fin n → ℝ) : ℝ :=
  1 + dd pix_x pix_y image / zz pix_x pix_y image

/-- line 127. -/
def vv (pix_x pix_y image : Fin n → ℝ) : ℝ := 2 - uu pix_x pix_y image

/-- lines 128-129. -/
def miss (pix_x pix_y image : Fin n → ℝ) : ℝ :=
  Real.sqrt ((uu pix_x pix_y image * moms0 pix_x image ^ 2 +
      vv pix_x pix_y image * moms1 pix_y image ^ 2) / 2 -
    moms0 pix_x image * moms1 pix_y image * 2 * vxy pix_x pix_y image /
      zz pix_x pix_y image)

/-- line 133: the radicand vx2 + vy2 - zz is passed to np.sqrt as is. -/
def width (pix_x pix_y image : Fin n → ℝ) : ℝ :=
  Real.sqrt (vx2 pix_x image + vy2 pix_y image - zz pix_x pix_y image)

/-- line 134. -/
def length (pix_x pix_y image : Fin n → ℝ) : ℝ :=
  Real.sqrt (vx2 pix_x image + vy2 pix_y image + zz pix_x pix_y image)

/-- line 135. -/
def distance (pix_x pix_y image : Fin n → ℝ) : ℝ :=
  hypot (moms0 pix_x image) (moms1 pix_y image)

/-- line 136: note that moms2 and moms3 are the raw, non central, second
moments. -/
def azwidth (pix_x pix_y image : Fin n → ℝ) : ℝ :=
  Real.sqrt (moms2 pix_x image + moms3 pix_y image - zz pix_x pix_y image)

/-- line 140. -/
def tanpsi_numer (pix_x pix_y image : Fin n → ℝ) : ℝ :=
  (dd pix_x pix_y image + zz pix_x pix_y image) * moms1 pix_y image +
    2 * vxy pix_x pix_y image * moms0 pix_x image

/-- line 141. -/
def tanpsi_denom (pix_x pix_y image : Fin n → ℝ) : ℝ :=
  2 * vxy pix_x pix_y image * moms1 pix_y image -
    (dd pix_x pix_y image - zz pix_x pix_y image) * moms0 pix_x image

/-- line 142. -/
def psi (pix_x pix_y image : Fin n → ℝ) : ℝ :=
  Real.pi / 2 + atan2 (tanpsi_numer pix_x pix_y image) (tanpsi_denom pix_x pix_y image)

/-- line 143. -/
def alpha (pix_x pix_y image : Fin n → ℝ) : ℝ :=
  Real.arcsin (miss pix_x pix_y image / distance pix_x pix_y image)

/-- line 144. -/
def phi (pix_x pix_y image : Fin n → ℝ) : ℝ :=
  atan2 (moms1 pix_y image) (moms0 pix_x image)

/-- lines 146-148: the returned dict. -/
def run (pix_x pix_y image : Fin n → ℝ) : Hillas2Result :=
  ⟨size image, moms0 pix_x image, moms1 pix_y image,
   length pix_x pix_y image, width pix_x pix_y image,
   distance pix_x pix_y image, azwidth pix_x pix_y image,
   psi pix_x pix_y image, phi pix_x pix_y image, alpha pix_x pix_y image⟩

end H2

/-- Whether an Except computation returned normally. -/
def isOk {α : Type} (e : Except String α) : Bool :=
  match e with
  | .ok _ => true
  | .error _ => false

/-- The full hillas_parameters entry point on numpy-style parallel list
inputs: the two assert statements of lines 40-41 are an error result, and
otherwise the pure computation of namespace H1 runs on the arrays.  On the
ok branch the lengths agree, so indexing x and y by positions of s with a
default value never actually falls back to the default. -/
def hillas_parameters (x y s : List ℝ) : Except String Hillas1Result :=
  if x.length = s.length then
    if y.length = s.length then
      .ok (H1.run (fun i : Fin s.length => x.getD i.val 0)
        (fun i : Fin s.length => y.getD i.val 0) s.get)
    else .error "assert y.shape == s.shape"
  else .error "assert x.shape == s.shape"

/-- The full hillas_parameters_2 entry point, with the assert statements of
lines 96-97 as an error result. -/
def hillas_parameters_2 (pix_x pix_y image : List ℝ) : Except String Hillas2Result :=
  if pix_x.length = image.length then
    if pix_y.length = image.length then
      .ok (H2.run (fun i : Fin image.length => pix_x.getD i.val 0)
        (fun i : Fin image.length => pix_y.getD i.val 0) image.get)
    else .error "assert pix_y.shape == image.shape"
  else .error "assert pix_x.shape == image.shape"

end

/-! ## Theorems on the frame transformations -/

section FrameTheorems

open Real

/-- Transpose of an explicit 3x3 matrix, a small helper used below. -/
theorem transpose_fin3 {α : Type} (a b c d e f g h i : α) :
    (Matrix.of ![![a, b, c], ![d, e, f], ![g, h, i]]).transpose =
      Matrix.of ![![a, d, g], ![b, e, h], ![c, f, i]] := by
  ext x y
  fin_cases x <;> fin_cases y <;> rfl

/-- Claim C6: for every azimuth and altitude the 3x3 matrix returned by
get_shower_trans_matrix is orthonormal: its transpose times itself is the
identity matrix, exactly, in real arithmetic; hence its inverse is its
transpose. -/
theorem trans_matrix_orthonormal (azimuth altitude : ℝ) :
    (get_shower_trans_matrix azimuth altitude).transpose *
      get_shower_trans_matrix azimuth altitude = 1 := by
  have haz := Real.sin_sq_add_cos_sq azimuth
  have halt := Real.sin_sq_add_cos_sq altitude
  rw [show get_shower_trans_matrix azimuth altitude = Matrix.of
      ![![Real.sin altitude * Real.cos azimuth,
          -(Real.sin altitude * Real.sin azimuth), -Real.cos altitude],
        ![Real.sin azimuth, Real.cos azimuth, 0],
        ![Real.cos altitude * Real.cos azimuth,
          -(Real.cos altitude * Real.sin azimuth), Real.sin altitude]] from rfl,
    transpose_fin3, Matrix.mul_fin_three, Matrix.one_fin_three]
  rw [Equiv.apply_eq_iff_eq]
  refine Matrix.vec3_eq (Matrix.vec3_eq ?_ ?_ ?_) (Matrix.vec3_eq ?_ ?_ ?_)
    (Matrix.vec3_eq ?_ ?_ ?_)
  · linear_combination Real.cos azimuth ^ 2 * halt + haz
  · linear_combination (-(Real.sin azimuth * Real.cos azimuth)) * halt
  · ring
  · linear_combination (-(Real.sin azimuth * Real.cos azimuth)) * halt
  · linear_combination Real.sin azimuth ^ 2 * halt + haz
  · ring
  · ring
  · ring
  · linear_combination halt

/-- Claim C7: a tilted-frame point, embedded into the ground frame with
tilted_to_ground, is recovered exactly by ground_to_tilted (first conjunct);
consequently, for every ground point that lies in the tilted plane, meaning
that it is the tilted_to_ground embedding of some tilted point, the
ground -> tilted -> ground round trip is the identity (second conjunct).
Both hold for every pointing direction, exactly, in real arithmetic. -/
theorem tilted_ground_roundtrip (azimuth altitude : ℝ) (q : ℝ × ℝ) :
    ground_to_tilted azimuth altitude (tilted_to_ground azimuth altitude q) = q ∧
    tilted_to_ground azimuth altitude
        (ground_to_tilted azimuth altitude (tilted_to_ground azimuth altitude q)) =
      tilted_to_ground azimuth altitude q := by
  have haz := Real.sin_sq_add_cos_sq azimuth
  have halt := Real.sin_sq_add_cos_sq altitude
  obtain ⟨a, b⟩ := q
  have h1 : ground_to_tilted azimuth altitude
      (tilted_to_ground azimuth altitude (a, b)) = (a, b) := by
    refine Prod.ext ?_ ?_ <;>
      simp only [ground_to_tilted, tilted_to_ground, get_shower_trans_matrix,
        Matrix.of_apply, Matrix.cons_val_zero, Matrix.cons_val_one,
        Matrix.cons_val_two, Matrix.cons_val_succ, Matrix.head_cons,
        Matrix.vecHead, Matrix.vecTail, Function.comp]
    · linear_combination (a * Real.sin altitude ^ 2) * haz + a * halt
    · linear_combination b * haz
  exact ⟨h1, by rw [h1]⟩

/-- Counterexample to claim C2: the denominator trans[2][2] used by
project_to_ground equals 1, not 0, at a pointing altitude of exactly 90
degrees (altitude pi/2, vertical pointing), and it equals 0 at altitude 0
(horizontal pointing), which is not vertical.  The matrix entry trans[2][2]
is the python variable cos_z = sin(altitude), despite its name. -/
theorem trans22_at_vertical_and_horizontal :
    get_shower_trans_matrix 0 (Real.pi / 2) 2 2 = 1 ∧
    get_shower_trans_matrix 0 0 2 2 = 0 := by
  constructor
  · show Real.sin (Real.pi / 2) = 1
    exact Real.sin_pi_div_two
  · show Real.sin 0 = 0
    exact Real.sin_zero

/-- Claim C2, amended: the denominator trans[2][2] by which project_to_ground
divides equals sin(altitude), and over the physical range 0 <= altitude <=
pi/2 it vanishes exactly at altitude = 0, horizontal pointing; in particular
the division is well defined for every pointing with sin(altitude) not zero,
vertical pointing included. -/
theorem trans22_zero_iff_horizontal (azimuth altitude : ℝ)
    (h0 : 0 ≤ altitude) (h1 : altitude ≤ Real.pi / 2) :
    get_shower_trans_matrix azimuth altitude 2 2 = Real.sin altitude ∧
    (get_shower_trans_matrix azimuth altitude 2 2 = 0 ↔ altitude = 0) := by
  have he : get_shower_trans_matrix azimuth altitude 2 2 = Real.sin altitude := rfl
  refine ⟨he, ?_⟩
  rw [he]
  constructor
  · intro h
    have hlt : altitude < Real.pi := lt_of_le_of_lt h1 (by linarith [Real.pi_pos])
    have hgt : -Real.pi < altitude := lt_of_lt_of_le (by linarith [Real.pi_pos]) h0
    exact (Real.sin_eq_zero_iff_of_lt_of_lt hgt hlt).1 h
  · intro h
    rw [h, Real.sin_zero]

/-- Witness for the amended claim C2 at the concrete input azimuth = 0,
altitude = 0. -/
theorem trans22_zero_iff_horizontal_witness :
    (0:ℝ) ≤ 0 ∧ (0:ℝ) ≤ Real.pi / 2 ∧
    (get_shower_trans_matrix 0 0 2 2 = Real.sin 0 ∧
      (get_shower_trans_matrix 0 0 2 2 = 0 ↔ (0:ℝ) = 0)) :=
  ⟨le_refl 0, by positivity, trans22_zero_iff_horizontal 0 0 (le_refl 0) (by positivity)⟩

end FrameTheorems

/-! ## Theorems on the Hillas routines -/

section HillasTheorems

/-- Claim C5: for every non-degenerate weighted point set, with all
intensities nonnegative and positive total intensity, hillas_parameters_2
returns length >= width >= 0, and its size field is the sum of the intensity
array. -/
theorem hillas2_ordering_and_size {n : ℕ} (pix_x pix_y image : Fin n → ℝ)
    (hnn : ∀ i, 0 ≤ image i) (hpos : 0 < ∑ i, image i) :
    H2.length pix_x pix_y image ≥ H2.width pix_x pix_y image ∧
    H2.width pix_x pix_y image ≥ 0 ∧
    H2.size image = ∑ i, image i := by
  refine ⟨?_, Real.sqrt_nonneg _, rfl⟩
  have hz : 0 ≤ H2.zz pix_x pix_y image := Real.sqrt_nonneg _
  exact Real.sqrt_le_sqrt (by linarith)

/-- Witness for claim C5 at the concrete single-pixel input
x = y = (0), intensity (1). -/
theorem hillas2_ordering_and_size_witness :
    (∀ i : Fin 1, 0 ≤ (fun _ : Fin 1 => (1:ℝ)) i) ∧
    (0 < ∑ i : Fin 1, (fun _ : Fin 1 => (1:ℝ)) i) ∧
    (H2.length (fun _ : Fin 1 => (0:ℝ)) (fun _ : Fin 1 => (0:ℝ))
        (fun _ : Fin 1 => (1:ℝ)) ≥
      H2.width (fun _ : Fin 1 => (0:ℝ)) (fun _ : Fin 1 => (0:ℝ))
        (fun _ : Fin 1 => (1:ℝ)) ∧
    H2.width (fun _ : Fin 1 => (0:ℝ)) (fun _ : Fin 1 => (0:ℝ))
        (fun _ : Fin 1 => (1:ℝ)) ≥ 0 ∧
    H2.size (fun _ : Fin 1 => (1:ℝ)) = ∑ i : Fin 1, (fun _ : Fin 1 => (1:ℝ)) i) :=
  ⟨fun _ => zero_le_one, by simp,
    hillas2_ordering_and_size _ _ _ (fun _ => zero_le_one) (by simp)⟩

/-- Counterexample to claim C9: at the concrete zero-total-intensity input
x = y = s = (0), both routines return normally (the embedded numpy division
by zero does not raise), refuting that they fail with an error. -/
theorem hillas_zero_intensity_returns_ok :
    isOk (hillas_parameters [(0:ℝ)] [(0:ℝ)] [(0:ℝ)]) = true ∧
    isOk (hillas_parameters_2 [(0:ℝ)] [(0:ℝ)] [(0:ℝ)]) = true := by
  constructor <;> rfl

/-- Claim C9, amended: for every input with matching shapes whose intensity
array sums to zero, both hillas routines return normally, with an ok result;
numpy performs the 0-division moment computations with a RuntimeWarning and
NaN values (junk 0 values under the embedding's total division) instead of
raising an error. -/
theorem hillas_zero_intensity_no_error (x y s : List ℝ)
    (hx : x.length = s.length) (hy : y.length = s.length)
    (hsum : H1._s s.get = 0) :
    isOk (hillas_parameters x y s) = true ∧
    isOk (hillas_parameters_2 x y s) = true := by
  constructor <;> simp [hillas_parameters, hillas_parameters_2, hx, hy, isOk]

/-- Witness for the amended claim C9 at the concrete input
x = y = s = (0). -/
theorem hillas_zero_intensity_no_error_witness :
    ([(0:ℝ)].length = [(0:ℝ)].length) ∧
    (H1._s [(0:ℝ)].get = 0) ∧
    (isOk (hillas_parameters [(0:ℝ)] [(0:ℝ)] [(0:ℝ)]) = true ∧
      isOk (hillas_parameters_2 [(0:ℝ)] [(0:ℝ)] [(0:ℝ)]) = true) :=
  ⟨rfl, by simp [H1._s],
    hillas_zero_intensity_no_error _ _ _ rfl rfl (by simp [H1._s])⟩

/-- Claim C10: in hillas_parameters, for every input whose weighted centroid
is exactly at the origin (m_x = 0 and m_y = 0, hence r = 0), the divisions
sin_theta = m_y / r and cos_theta = m_x / r are by zero, and the function
returns normally, an ok result, rather than raising; the azwidth it returns
is the junk value of the 0-divisions (0 under the embedding's total
division, NaN in numpy). -/
theorem hillas1_centroid_origin_division (x y s : List ℝ)
    (hx : x.length = s.length) (hy : y.length = s.length)
    (hmx : H1.m_x (fun i : Fin s.length => x.getD i.val 0) s.get = 0)
    (hmy : H1.m_y (fun i : Fin s.length => y.getD i.val 0) s.get = 0) :
    isOk (hillas_parameters x y s) = true ∧
    H1.r (fun i : Fin s.length => x.getD i.val 0)
      (fun i : Fin s.length => y.getD i.val 0) s.get = 0 ∧
    H1.azwidth (fun i : Fin s.length => x.getD i.val 0)
      (fun i : Fin s.length => y.getD i.val 0) s.get = 0 := by
  set X := fun i : Fin s.length => x.getD i.val 0 with hX
  set Y := fun i : Fin s.length => y.getD i.val 0 with hY
  have hr : H1.r X Y s.get = 0 := by
    unfold H1.r
    rw [hmx, hmy]
    norm_num
  have hq : ∀ i, H1.q X Y s.get i = 0 := by
    intro i
    unfold H1.q H1.sin_theta H1.cos_theta
    rw [hmx, hmy, hr]
    simp
  have hmq : H1.m_q X Y s.get = 0 := by
    unfold H1.m_q
    simp [hq]
  have hmqq : H1.m_qq X Y s.get = 0 := by
    unfold H1.m_qq
    simp [hq]
  have haz : H1.azwidth X Y s.get = 0 := by
    unfold H1.azwidth H1.azwidth_2
    rw [hmq, hmqq]
    norm_num
  refine ⟨?_, hr, haz⟩
  simp [hillas_parameters, hx, hy, isOk]

/-- Witness for claim C10 at the concrete input x = y = (0), s = (1). -/
theorem hillas1_centroid_origin_division_witness :
    ([(0:ℝ)].length = [(1:ℝ)].length) ∧
    (H1.m_x (fun i : Fin [(1:ℝ)].length => [(0:ℝ)].getD i.val 0) [(1:ℝ)].get = 0) ∧
    (isOk (hillas_parameters [(0:ℝ)] [(0:ℝ)] [(1:ℝ)]) = true ∧
      H1.r (fun i : Fin [(1:ℝ)].length => [(0:ℝ)].getD i.val 0)
        (fun i : Fin [(1:ℝ)].length => [(0:ℝ)].getD i.val 0) [(1:ℝ)].get = 0 ∧
      H1.azwidth (fun i : Fin [(1:ℝ)].length => [(0:ℝ)].getD i.val 0)
        (fun i : Fin [(1:ℝ)].length => [(0:ℝ)].getD i.val 0) [(1:ℝ)].get = 0) :=
  ⟨rfl, by simp [H1.m_x], hillas1_centroid_origin_division _ _ _ rfl rfl
    (by simp [H1.m_x]) (by simp [H1.m_y])⟩

/-! Helper lemmas: behaviour of the weighted moments under a constant
translation of the coordinate arrays. -/

theorem H2_moms0_shift {n : ℕ} (pix_x image : Fin n → ℝ) (c : ℝ)
    (h : H2.size image ≠ 0) :
    H2.moms0 (fun i => pix_x i + c) image = H2.moms0 pix_x image + c := by
  unfold H2.moms0
  have h1 : ∀ i ∈ (Finset.univ : Finset (Fin n)),
      (pix_x i + c) * image i = pix_x i * image i + c * image i := fun i _ => by ring
  rw [Finset.sum_congr rfl h1, Finset.sum_add_distrib, ← Finset.mul_sum]
  show (_ + c * H2.size image) / H2.size image = _
  rw [add_div, mul_div_assoc, div_self h, mul_one]

theorem H2_moms2_shift {n : ℕ} (pix_x image : Fin n → ℝ) (c : ℝ)
    (h : H2.size image ≠ 0) :
    H2.moms2 (fun i => pix_x i + c) image =
      H2.moms2 pix_x image + 2 * c * H2.moms0 pix_x image + c ^ 2 := by
  unfold H2.moms2 H2.moms0
  have h1 : ∀ i ∈ (Finset.univ : Finset (Fin n)),
      (pix_x i + c) * (pix_x i + c) * image i =
        pix_x i * pix_x i * image i + (2 * c) * (pix_x i * image i) +
          (c * c) * image i := fun i _ => by ring
  rw [Finset.sum_congr rfl h1, Finset.sum_add_distrib, Finset.sum_add_distrib,
    ← Finset.mul_sum, ← Finset.mul_sum]
  show (_ + _ + c * c * H2.size image) / H2.size image = _
  rw [add_div, add_div, mul_div_assoc, mul_div_assoc, div_self h, mul_one]
  ring

theorem H2_moms4_shift {n : ℕ} (pix_x pix_y image : Fin n → ℝ) (c e : ℝ)
    (h : H2.size image ≠ 0) :
    H2.moms4 (fun i => pix_x i + c) (fun i => pix_y i + e) image =
      H2.moms4 pix_x pix_y image + c * H2.moms1 pix_y image +
        e * H2.moms0 pix_x image + c * e := by
  unfold H2.moms4 H2.moms0 H2.moms1
  have h1 : ∀ i ∈ (Finset.univ : Finset (Fin n)),
      (pix_x i + c) * (pix_y i + e) * image i =
        pix_x i * pix_y i * image i + c * (pix_y i * image i) +
          e * (pix_x i * image i) + (c * e) * image i := fun i _ => by ring
  rw [Finset.sum_congr rfl h1, Finset.sum_add_distrib, Finset.sum_add_distrib,
    Finset.sum_add_distrib, ← Finset.mul_sum, ← Finset.mul_sum, ← Finset.mul_sum]
  show (_ + _ + _ + c * e * H2.size image) / H2.size image = _
  rw [add_div, add_div, add_div, mul_div_assoc, mul_div_assoc, mul_div_assoc,
    div_self h, mul_one]

theorem H2_vx2_shift {n : ℕ} (pix_x image : Fin n → ℝ) (c : ℝ)
    (h : H2.size image ≠ 0) :
    H2.vx2 (fun i => pix_x i + c) image = H2.vx2 pix_x image := by
  unfold H2.vx2
  rw [H2_moms2_shift pix_x image c h, H2_moms0_shift pix_x image c h]
  ring

theorem H2_moms1_as_moms0 {n : ℕ} (pix_y image : Fin n → ℝ) :
    H2.moms1 pix_y image = H2.moms0 pix_y image := rfl

theorem H2_moms3_as_moms2 {n : ℕ} (pix_y image : Fin n → ℝ) :
    H2.moms3 pix_y image = H2.moms2 pix_y image := rfl

theorem H2_vy2_shift {n : ℕ} (pix_y image : Fin n → ℝ) (e : ℝ)
    (h : H2.size image ≠ 0) :
    H2.vy2 (fun i => pix_y i + e) image = H2.vy2 pix_y image := by
  unfold H2.vy2
  rw [H2_moms3_as_moms2, H2_moms3_as_moms2, H2_moms1_as_moms0, H2_moms1_as_moms0,
    H2_moms2_shift pix_y image e h, H2_moms0_shift pix_y image e h]
  ring

theorem H2_vxy_shift {n : ℕ} (pix_x pix_y image : Fin n → ℝ) (c e : ℝ)
    (h : H2.size image ≠ 0) :
    H2.vxy (fun i => pix_x i + c) (fun i => pix_y i + e) image =
      H2.vxy pix_x pix_y image := by
  unfold H2.vxy
  rw [H2_moms4_shift pix_x pix_y image c e h, H2_moms0_shift pix_x image c h,
    H2_moms1_as_moms0, H2_moms1_as_moms0, H2_moms0_shift pix_y image e h]
  ring

theorem H2_zz_shift {n : ℕ} (pix_x pix_y image : Fin n → ℝ) (c e : ℝ)
    (h : H2.size image ≠ 0) :
    H2.zz (fun i => pix_x i + c) (fun i => pix_y i + e) image =
      H2.zz pix_x pix_y image := by
  unfold H2.zz H2.dd
  rw [H2_vx2_shift pix_x image c h, H2_vy2_shift pix_y image e h,
    H2_vxy_shift pix_x pix_y image c e h]

theorem H1_m_y_as_m_x {n : ℕ} (y s : Fin n → ℝ) : H1.m_y y s = H1.m_x y s := rfl

theorem H1_m_yy_as_m_xx {n : ℕ} (y s : Fin n → ℝ) : H1.m_yy y s = H1.m_xx y s := rfl

theorem H1_m_x_shift {n : ℕ} (x s : Fin n → ℝ) (c : ℝ) (h : H1._s s ≠ 0) :
    H1.m_x (fun i => x i + c) s = H1.m_x x s + c := by
  unfold H1.m_x
  have h1 : ∀ i ∈ (Finset.univ : Finset (Fin n)),
      s i * (x i + c) = s i * x i + c * s i := fun i _ => by ring
  rw [Finset.sum_congr rfl h1, Finset.sum_add_distrib, ← Finset.mul_sum]
  show (_ + c * H1._s s) / H1._s s = _
  rw [add_div, mul_div_assoc, div_self h, mul_one]

theorem H1_m_xx_shift {n : ℕ} (x s : Fin n → ℝ) (c : ℝ) (h : H1._s s ≠ 0) :
    H1.m_xx (fun i => x i + c) s =
      H1.m_xx x s + 2 * c * H1.m_x x s + c ^ 2 := by
  unfold H1.m_xx H1.m_x
  have h1 : ∀ i ∈ (Finset.univ : Finset (Fin n)),
      s i * (x i + c) * (x i + c) =
        s i * x i * x i + (2 * c) * (s i * x i) + (c * c) * s i := fun i _ => by ring
  rw [Finset.sum_congr rfl h1, Finset.sum_add_distrib, Finset.sum_add_distrib,
    ← Finset.mul_sum, ← Finset.mul_sum]
  show (_ + _ + c * c * H1._s s) / H1._s s = _
  rw [add_div, add_div, mul_div_assoc, mul_div_assoc, div_self h, mul_one]
  ring

theorem H1_m_xy_shift {n : ℕ} (x y s : Fin n → ℝ) (c e : ℝ) (h : H1._s s ≠ 0) :
    H1.m_xy (fun i => x i + c) (fun i => y i + e) s =
      H1.m_xy x y s + c * H1.m_y y s + e * H1.m_x x s + c * e := by
  unfold H1.m_xy H1.m_x H1.m_y
  have h1 : ∀ i ∈ (Finset.univ : Finset (Fin n)),
      s i * (x i + c) * (y i + e) =
        s i * x i * y i + c * (s i * y i) + e * (s i * x i) +
          (c * e) * s i := fun i _ => by ring
  rw [Finset.sum_congr rfl h1, Finset.sum_add_distrib, Finset.sum_add_distrib,
    Finset.sum_add_distrib, ← Finset.mul_sum, ← Finset.mul_sum, ← Finset.mul_sum]
  show (_ + _ + _ + c * e * H1._s s) / H1._s s = _
  rw [add_div, add_div, add_div, mul_div_assoc, mul_div_assoc, mul_div_assoc,
    div_self h, mul_one]

theorem H1_S_xx_shift {n : ℕ} (x s : Fin n → ℝ) (c : ℝ) (h : H1._s s ≠ 0) :
    H1.S_xx (fun i => x i + c) s = H1.S_xx x s := by
  unfold H1.S_xx
  rw [H1_m_xx_shift x s c h, H1_m_x_shift x s c h]
  ring

theorem H1_S_yy_shift {n : ℕ} (y s : Fin n → ℝ) (e : ℝ) (h : H1._s s ≠ 0) :
    H1.S_yy (fun i => y i + e) s = H1.S_yy y s := by
  unfold H1.S_yy
  rw [H1_m_yy_as_m_xx, H1_m_yy_as_m_xx, H1_m_y_as_m_x, H1_m_y_as_m_x,
    H1_m_xx_shift y s e h, H1_m_x_shift y s e h]
  ring

theorem H1_S_xy_shift {n : ℕ} (x y s : Fin n → ℝ) (c e : ℝ) (h : H1._s s ≠ 0) :
    H1.S_xy (fun i => x i + c) (fun i => y i + e) s = H1.S_xy x y s := by
  unfold H1.S_xy
  rw [H1_m_xy_shift x y s c e h, H1_m_x_shift x s c h, H1_m_y_as_m_x,
    H1_m_y_as_m_x, H1_m_x_shift y s e h]
  ring

theorem H1_a_shift {n : ℕ} (x y s : Fin n → ℝ) (c e : ℝ) (h : H1._s s ≠ 0) :
    H1.a (fun i => x i + c) (fun i => y i + e) s = H1.a x y s := by
  unfold H1.a H1.temp H1.d
  rw [H1_S_xx_shift x s c h, H1_S_yy_shift y s e h, H1_S_xy_shift x y s c e h]

theorem H1_width_shift {n : ℕ} (x y s : Fin n → ℝ) (c e : ℝ) (h : H1._s s ≠ 0) :
    H1.width (fun i => x i + c) (fun i => y i + e) s = H1.width x y s := by
  unfold H1.width H1.width_2
  rw [H1_S_xx_shift x s c h, H1_S_yy_shift y s e h, H1_S_xy_shift x y s c e h,
    H1_a_shift x y s c e h]

theorem H1_length_shift {n : ℕ} (x y s : Fin n → ℝ) (c e : ℝ) (h : H1._s s ≠ 0) :
    H1.length (fun i => x i + c) (fun i => y i + e) s = H1.length x y s := by
  unfold H1.length H1.length_2
  rw [H1_S_xx_shift x s c h, H1_S_yy_shift y s e h, H1_S_xy_shift x y s c e h,
    H1_a_shift x y s c e h]

/-! Helpers for evaluating square roots at concrete inputs. -/

theorem sqrt_eval {a b : ℝ} (hb : 0 ≤ b) (h : b ^ 2 = a) : Real.sqrt a = b := by
  rw [← h]
  exact Real.sqrt_sq hb

theorem sqrt_ne_sqrt {a b : ℝ} (ha : 0 ≤ a) (hb : 0 ≤ b) (hab : a ≠ b) :
    Real.sqrt a ≠ Real.sqrt b := fun h =>
  hab (by rw [← Real.sq_sqrt ha, ← Real.sq_sqrt hb, h])

/-- Counterexample to claim C8: for the concrete two-pixel image at
coordinates (0,1), (1,2) with intensities 1, 1 (a non-degenerate input: total
intensity 2, zz = 1/2), translating the y array by the constant 1 changes
both the miss and the azwidth that hillas_parameters_2 returns, from
sqrt(1/2) to sqrt(2) and from sqrt(5/2) to sqrt(13/2), refuting their
claimed translation invariance. -/
theorem hillas2_miss_azwidth_not_translation_invariant :
    H2.miss ![(0:ℝ), 1] (fun i => ![(1:ℝ), 2] i + 1) ![(1:ℝ), 1] ≠
      H2.miss ![(0:ℝ), 1] ![(1:ℝ), 2] ![(1:ℝ), 1] ∧
    H2.azwidth ![(0:ℝ), 1] (fun i => ![(1:ℝ), 2] i + 1) ![(1:ℝ), 1] ≠
      H2.azwidth ![(0:ℝ), 1] ![(1:ℝ), 2] ![(1:ℝ), 1] := by
  have hm0 : H2.moms0 ![(0:ℝ), 1] ![(1:ℝ), 1] = 1 / 2 := by
    norm_num [H2.moms0, H2.size, Fin.sum_univ_two]
  have hm1 : H2.moms1 ![(1:ℝ), 2] ![(1:ℝ), 1] = 3 / 2 := by
    norm_num [H2.moms1, H2.size, Fin.sum_univ_two]
  have hm2 : H2.moms2 ![(0:ℝ), 1] ![(1:ℝ), 1] = 1 / 2 := by
    norm_num [H2.moms2, H2.size, Fin.sum_univ_two]
  have hm3 : H2.moms3 ![(1:ℝ), 2] ![(1:ℝ), 1] = 5 / 2 := by
    norm_num [H2.moms3, H2.size, Fin.sum_univ_two]
  have hm4 : H2.moms4 ![(0:ℝ), 1] ![(1:ℝ), 2] ![(1:ℝ), 1] = 1 := by
    norm_num [H2.moms4, H2.size, Fin.sum_univ_two]
  have hvx2 : H2.vx2 ![(0:ℝ), 1] ![(1:ℝ), 1] = 1 / 4 := by
    simp only [H2.vx2]
    rw [hm2, hm0]
    norm_num
  have hvy2 : H2.vy2 ![(1:ℝ), 2] ![(1:ℝ), 1] = 1 / 4 := by
    simp only [H2.vy2]
    rw [hm3, hm1]
    norm_num
  have hvxy : H2.vxy ![(0:ℝ), 1] ![(1:ℝ), 2] ![(1:ℝ), 1] = 1 / 4 := by
    simp only [H2.vxy]
    rw [hm4, hm0, hm1]
    norm_num
  have hdd : H2.dd ![(0:ℝ), 1] ![(1:ℝ), 2] ![(1:ℝ), 1] = 0 := by
    simp only [H2.dd]
    rw [hvy2, hvx2]
    norm_num
  have hzz : H2.zz ![(0:ℝ), 1] ![(1:ℝ), 2] ![(1:ℝ), 1] = 1 / 2 := by
    simp only [H2.zz]
    rw [hdd, hvxy]
    exact sqrt_eval (by norm_num) (by norm_num)
  have huu : H2.uu ![(0:ℝ), 1] ![(1:ℝ), 2] ![(1:ℝ), 1] = 1 := by
    simp only [H2.uu]
    rw [hdd, hzz]
    norm_num
  have hmiss : H2.miss ![(0:ℝ), 1] ![(1:ℝ), 2] ![(1:ℝ), 1] = Real.sqrt (1 / 2) := by
    simp only [H2.miss, H2.vv]
    rw [huu, hm0, hm1, hvxy, hzz]
    exact congrArg Real.sqrt (by norm_num)
  have hazw : H2.azwidth ![(0:ℝ), 1] ![(1:ℝ), 2] ![(1:ℝ), 1] = Real.sqrt (5 / 2) := by
    simp only [H2.azwidth]
    rw [hm2, hm3, hzz]
    exact congrArg Real.sqrt (by norm_num)
  have hm1s : H2.moms1 (fun i => ![(1:ℝ), 2] i + 1) ![(1:ℝ), 1] = 5 / 2 := by
    norm_num [H2.moms1, H2.size, Fin.sum_univ_two]
  have hm3s : H2.moms3 (fun i => ![(1:ℝ), 2] i + 1) ![(1:ℝ), 1] = 13 / 2 := by
    norm_num [H2.moms3, H2.size, Fin.sum_univ_two]
  have hm4s : H2.moms4 ![(0:ℝ), 1] (fun i => ![(1:ℝ), 2] i + 1) ![(1:ℝ), 1] = 3 / 2 := by
    norm_num [H2.moms4, H2.size, Fin.sum_univ_two]
  have hvy2s : H2.vy2 (fun i => ![(1:ℝ), 2] i + 1) ![(1:ℝ), 1] = 1 / 4 := by
    simp only [H2.vy2]
    rw [hm3s, hm1s]
    norm_num
  have hvxys : H2.vxy ![(0:ℝ), 1] (fun i => ![(1:ℝ), 2] i + 1) ![(1:ℝ), 1] = 1 / 4 := by
    simp only [H2.vxy]
    rw [hm4s, hm0, hm1s]
    norm_num
  have hdds : H2.dd ![(0:ℝ), 1] (fun i => ![(1:ℝ), 2] i + 1) ![(1:ℝ), 1] = 0 := by
    simp only [H2.dd]
    rw [hvy2s, hvx2]
    norm_num
  have hzzs : H2.zz ![(0:ℝ), 1] (fun i => ![(1:ℝ), 2] i + 1) ![(1:ℝ), 1] = 1 / 2 := by
    simp only [H2.zz]
    rw [hdds, hvxys]
    exact sqrt_eval (by norm_num) (by norm_num)
  have huus : H2.uu ![(0:ℝ), 1] (fun i => ![(1:ℝ), 2] i + 1) ![(1:ℝ), 1] = 1 := by
    simp only [H2.uu]
    rw [hdds, hzzs]
    norm_num
  have hmisss : H2.miss ![(0:ℝ), 1] (fun i => ![(1:ℝ), 2] i + 1) ![(1:ℝ), 1] =
      Real.sqrt 2 := by
    simp only [H2.miss, H2.vv]
    rw [huus, hm0, hm1s, hvxys, hzzs]
    exact congrArg Real.sqrt (by norm_num)
  have hazws : H2.azwidth ![(0:ℝ), 1] (fun i => ![(1:ℝ), 2] i + 1) ![(1:ℝ), 1] =
      Real.sqrt (13 / 2) := by
    simp only [H2.azwidth]
    rw [hm2, hm3s, hzzs]
    exact congrArg Real.sqrt (by norm_num)
  rw [hmiss, hmisss, hazw, hazws]
  exact ⟨sqrt_ne_sqrt (by norm_num) (by norm_num) (by norm_num),
    sqrt_ne_sqrt (by norm_num) (by norm_num) (by norm_num)⟩

/-- Claim C8, amended: translating both coordinate arrays by constants dx
and dy leaves width and length unchanged, for both hillas routines, and
shifts the centroid by (dx, dy), so that distance and phi become the hypot
and arctan2 of the shifted centroid; the claimed invariance of miss and
azwidth fails, because both are referenced to the camera origin, not to the
centroid. -/
theorem hillas_translation_covariance {n : ℕ} (pix_x pix_y image : Fin n → ℝ)
    (dx dy : ℝ) (hpos : 0 < ∑ i, image i) :
    H2.width (fun i => pix_x i + dx) (fun i => pix_y i + dy) image =
      H2.width pix_x pix_y image ∧
    H2.length (fun i => pix_x i + dx) (fun i => pix_y i + dy) image =
      H2.length pix_x pix_y image ∧
    H2.moms0 (fun i => pix_x i + dx) image = H2.moms0 pix_x image + dx ∧
    H2.moms1 (fun i => pix_y i + dy) image = H2.moms1 pix_y image + dy ∧
    H2.distance (fun i => pix_x i + dx) (fun i => pix_y i + dy) image =
      hypot (H2.moms0 pix_x image + dx) (H2.moms1 pix_y image + dy) ∧
    H2.phi (fun i => pix_x i + dx) (fun i => pix_y i + dy) image =
      atan2 (H2.moms1 pix_y image + dy) (H2.moms0 pix_x image + dx) ∧
    H1.width (fun i => pix_x i + dx) (fun i => pix_y i + dy) image =
      H1.width pix_x pix_y image ∧
    H1.length (fun i => pix_x i + dx) (fun i => pix_y i + dy) image =
      H1.length pix_x pix_y image ∧
    H1.m_x (fun i => pix_x i + dx) image = H1.m_x pix_x image + dx ∧
    H1.m_y (fun i => pix_y i + dy) image = H1.m_y pix_y image + dy := by
  have h2 : H2.size image ≠ 0 := ne_of_gt hpos
  have h1 : H1._s image ≠ 0 := ne_of_gt hpos
  refine ⟨?_, ?_, H2_moms0_shift pix_x image dx h2, ?_, ?_, ?_,
    H1_width_shift pix_x pix_y image dx dy h1,
    H1_length_shift pix_x pix_y image dx dy h1,
    H1_m_x_shift pix_x image dx h1, ?_⟩
  · unfold H2.width
    rw [H2_vx2_shift pix_x image dx h2, H2_vy2_shift pix_y image dy h2,
      H2_zz_shift pix_x pix_y image dx dy h2]
  · unfold H2.length
    rw [H2_vx2_shift pix_x image dx h2, H2_vy2_shift pix_y image dy h2,
      H2_zz_shift pix_x pix_y image dx dy h2]
  · rw [H2_moms1_as_moms0, H2_moms1_as_moms0, H2_moms0_shift pix_y image dy h2]
  · unfold H2.distance
    rw [H2_moms0_shift pix_x image dx h2, H2_moms1_as_moms0, H2_moms1_as_moms0,
      H2_moms0_shift pix_y image dy h2]
  · unfold H2.phi
    rw [H2_moms0_shift pix_x image dx h2, H2_moms1_as_moms0, H2_moms1_as_moms0,
      H2_moms0_shift pix_y image dy h2]
  · rw [H1_m_y_as_m_x, H1_m_y_as_m_x, H1_m_x_shift pix_y image dy h1]

/-- Witness for the amended claim C8 at the concrete two-pixel input of the
counterexample, with offsets dx = 0 and dy = 1. -/
theorem hillas_translation_covariance_witness :
    (0 < ∑ i : Fin 2, (![(1:ℝ), 1]) i) ∧
    (H2.width (fun i => ![(0:ℝ), 1] i + 0) (fun i => ![(1:ℝ), 2] i + 1) ![(1:ℝ), 1] =
      H2.width ![(0:ℝ), 1] ![(1:ℝ), 2] ![(1:ℝ), 1] ∧
    H2.length (fun i => ![(0:ℝ), 1] i + 0) (fun i => ![(1:ℝ), 2] i + 1) ![(1:ℝ), 1] =
      H2.length ![(0:ℝ), 1] ![(1:ℝ), 2] ![(1:ℝ), 1] ∧
    H2.moms0 (fun i => ![(0:ℝ), 1] i + 0) ![(1:ℝ), 1] =
      H2.moms0 ![(0:ℝ), 1] ![(1:ℝ), 1] + 0 ∧
    H2.moms1 (fun i => ![(1:ℝ), 2] i + 1) ![(1:ℝ), 1] =
      H2.moms1 ![(1:ℝ), 2] ![(1:ℝ), 1] + 1 ∧
    H2.distance (fun i => ![(0:ℝ), 1] i + 0) (fun i => ![(1:ℝ), 2] i + 1) ![(1:ℝ), 1] =
      hypot (H2.moms0 ![(0:ℝ), 1] ![(1:ℝ), 1] + 0)
        (H2.moms1 ![(1:ℝ), 2] ![(1:ℝ), 1] + 1) ∧
    H2.phi (fun i => ![(0:ℝ), 1] i + 0) (fun i => ![(1:ℝ), 2] i + 1) ![(1:ℝ), 1] =
      atan2 (H2.moms1 ![(1:ℝ), 2] ![(1:ℝ), 1] + 1)
        (H2.moms0 ![(0:ℝ), 1] ![(1:ℝ), 1] + 0) ∧
    H1.width (fun i => ![(0:ℝ), 1] i + 0) (fun i => ![(1:ℝ), 2] i + 1) ![(1:ℝ), 1] =
      H1.width ![(0:ℝ), 1] ![(1:ℝ), 2] ![(1:ℝ), 1] ∧
    H1.length (fun i => ![(0:ℝ), 1] i + 0) (fun i => ![(1:ℝ), 2] i + 1) ![(1:ℝ), 1] =
      H1.length ![(0:ℝ), 1] ![(1:ℝ), 2] ![(1:ℝ), 1] ∧
    H1.m_x (fun i => ![(0:ℝ), 1] i + 0) ![(1:ℝ), 1] =
      H1.m_x ![(0:ℝ), 1] ![(1:ℝ), 1] + 0 ∧
    H1.m_y (fun i => ![(1:ℝ), 2] i + 1) ![(1:ℝ), 1] =
      H1.m_y ![(1:ℝ), 2] ![(1:ℝ), 1] + 1) :=
  ⟨by norm_num [Fin.sum_univ_two],
    hillas_translation_covariance ![(0:ℝ), 1] ![(1:ℝ), 2] ![(1:ℝ), 1] 0 1
      (by norm_num [Fin.sum_univ_two])⟩

/-- Claim C1, evaluated at a failing input: for the concrete well-conditioned
three-pixel image at coordinates (0,0), (2,1), (1,2) with intensities
1, 1, 1 (total intensity 3, vxy = 1/3, covariance determinant 1/3 > 0), the
two hillas routines disagree: hillas_parameters returns width sqrt(1/3) and
length 1, while hillas_parameters_2 returns width sqrt(2/3) and length
sqrt(2), each sqrt(2) times larger, because the radicands of lines 133-134
omit the factor 1/2 present in the eigenvalue form used by the first
variant. -/
theorem hillas_variants_disagree :
    H1.width ![(0:ℝ), 2, 1] ![(0:ℝ), 1, 2] ![(1:ℝ), 1, 1] = Real.sqrt (1 / 3) ∧
    H2.width ![(0:ℝ), 2, 1] ![(0:ℝ), 1, 2] ![(1:ℝ), 1, 1] = Real.sqrt (2 / 3) ∧
    H1.length ![(0:ℝ), 2, 1] ![(0:ℝ), 1, 2] ![(1:ℝ), 1, 1] = 1 ∧
    H2.length ![(0:ℝ), 2, 1] ![(0:ℝ), 1, 2] ![(1:ℝ), 1, 1] = Real.sqrt 2 ∧
    H1.width ![(0:ℝ), 2, 1] ![(0:ℝ), 1, 2] ![(1:ℝ), 1, 1] ≠
      H2.width ![(0:ℝ), 2, 1] ![(0:ℝ), 1, 2] ![(1:ℝ), 1, 1] ∧
    H1.length ![(0:ℝ), 2, 1] ![(0:ℝ), 1, 2] ![(1:ℝ), 1, 1] ≠
      H2.length ![(0:ℝ), 2, 1] ![(0:ℝ), 1, 2] ![(1:ℝ), 1, 1] := by
  have hmx : H1.m_x ![(0:ℝ), 2, 1] ![(1:ℝ), 1, 1] = 1 := by
    norm_num [H1.m_x, H1._s, Fin.sum_univ_three]
  have hmy : H1.m_y ![(0:ℝ), 1, 2] ![(1:ℝ), 1, 1] = 1 := by
    norm_num [H1.m_y, H1._s, Fin.sum_univ_three]
  have hmxx : H1.m_xx ![(0:ℝ), 2, 1] ![(1:ℝ), 1, 1] = 5 / 3 := by
    norm_num [H1.m_xx, H1._s, Fin.sum_univ_three]
  have hmyy : H1.m_yy ![(0:ℝ), 1, 2] ![(1:ℝ), 1, 1] = 5 / 3 := by
    norm_num [H1.m_yy, H1._s, Fin.sum_univ_three]
  have hmxy : H1.m_xy ![(0:ℝ), 2, 1] ![(0:ℝ), 1, 2] ![(1:ℝ), 1, 1] = 4 / 3 := by
    norm_num [H1.m_xy, H1._s, Fin.sum_univ_three]
  have hSxx : H1.S_xx ![(0:ℝ), 2, 1] ![(1:ℝ), 1, 1] = 2 / 3 := by
    simp only [H1.S_xx]
    rw [hmxx, hmx]
    norm_num
  have hSyy : H1.S_yy ![(0:ℝ), 1, 2] ![(1:ℝ), 1, 1] = 2 / 3 := by
    simp only [H1.S_yy]
    rw [hmyy, hmy]
    norm_num
  have hSxy : H1.S_xy ![(0:ℝ), 2, 1] ![(0:ℝ), 1, 2] ![(1:ℝ), 1, 1] = 1 / 3 := by
    simp only [H1.S_xy]
    rw [hmxy, hmx, hmy]
    norm_num
  have hd : H1.d ![(0:ℝ), 2, 1] ![(0:ℝ), 1, 2] ![(1:ℝ), 1, 1] = 0 := by
    simp only [H1.d]
    rw [hSyy, hSxx]
    norm_num
  have htemp : H1.temp ![(0:ℝ), 2, 1] ![(0:ℝ), 1, 2] ![(1:ℝ), 1, 1] = 4 / 9 := by
    simp only [H1.temp]
    rw [hd, hSxy]
    norm_num
  have ha : H1.a ![(0:ℝ), 2, 1] ![(0:ℝ), 1, 2] ![(1:ℝ), 1, 1] = 1 := by
    simp only [H1.a]
    rw [hd, htemp, hSxy, sqrt_eval (b := 2 / 3) (by norm_num) (by norm_num)]
    norm_num
  have hw2 : H1.width_2 ![(0:ℝ), 2, 1] ![(0:ℝ), 1, 2] ![(1:ℝ), 1, 1] = 1 / 3 := by
    simp only [H1.width_2]
    rw [hSyy, hSxx, hSxy, ha]
    norm_num
  have hw1 : H1.width ![(0:ℝ), 2, 1] ![(0:ℝ), 1, 2] ![(1:ℝ), 1, 1] =
      Real.sqrt (1 / 3) := by
    simp only [H1.width]
    rw [hw2]
  have hl2 : H1.length_2 ![(0:ℝ), 2, 1] ![(0:ℝ), 1, 2] ![(1:ℝ), 1, 1] = 1 := by
    simp only [H1.length_2]
    rw [hSyy, hSxx, hSxy, ha]
    norm_num
  have hl1 : H1.length ![(0:ℝ), 2, 1] ![(0:ℝ), 1, 2] ![(1:ℝ), 1, 1] = 1 := by
    simp only [H1.length]
    rw [hl2]
    exact Real.sqrt_one
  have hm0 : H2.moms0 ![(0:ℝ), 2, 1] ![(1:ℝ), 1, 1] = 1 := by
    norm_num [H2.moms0, H2.size, Fin.sum_univ_three]
  have hm1 : H2.moms1 ![(0:ℝ), 1, 2] ![(1:ℝ), 1, 1] = 1 := by
    norm_num [H2.moms1, H2.size, Fin.sum_univ_three]
  have hm2 : H2.moms2 ![(0:ℝ), 2, 1] ![(1:ℝ), 1, 1] = 5 / 3 := by
    norm_num [H2.moms2, H2.size, Fin.sum_univ_three]
  have hm3 : H2.moms3 ![(0:ℝ), 1, 2] ![(1:ℝ), 1, 1] = 5 / 3 := by
    norm_num [H2.moms3, H2.size, Fin.sum_univ_three]
  have hm4 : H2.moms4 ![(0:ℝ), 2, 1] ![(0:ℝ), 1, 2] ![(1:ℝ), 1, 1] = 4 / 3 := by
    norm_num [H2.moms4, H2.size, Fin.sum_univ_three]
  have hvx2 : H2.vx2 ![(0:ℝ), 2, 1] ![(1:ℝ), 1, 1] = 2 / 3 := by
    simp only [H2.vx2]
    rw [hm2, hm0]
    norm_num
  have hvy2 : H2.vy2 ![(0:ℝ), 1, 2] ![(1:ℝ), 1, 1] = 2 / 3 := by
    simp only [H2.vy2]
    rw [hm3, hm1]
    norm_num
  have hvxy : H2.vxy ![(0:ℝ), 2, 1] ![(0:ℝ), 1, 2] ![(1:ℝ), 1, 1] = 1 / 3 := by
    simp only [H2.vxy]
    rw [hm4, hm0, hm1]
    norm_num
  have hdd : H2.dd ![(0:ℝ), 2, 1] ![(0:ℝ), 1, 2] ![(1:ℝ), 1, 1] = 0 := by
    simp only [H2.dd]
    rw [hvy2, hvx2]
    norm_num
  have hzz : H2.zz ![(0:ℝ), 2, 1] ![(0:ℝ), 1, 2] ![(1:ℝ), 1, 1] = 2 / 3 := by
    simp only [H2.zz]
    rw [hdd, hvxy]
    exact sqrt_eval (by norm_num) (by norm_num)
  have hw2' : H2.width ![(0:ℝ), 2, 1] ![(0:ℝ), 1, 2] ![(1:ℝ), 1, 1] =
      Real.sqrt (2 / 3) := by
    simp only [H2.width]
    rw [hvx2, hvy2, hzz]
    exact congrArg Real.sqrt (by norm_num)
  have hl2' : H2.length ![(0:ℝ), 2, 1] ![(0:ℝ), 1, 2] ![(1:ℝ), 1, 1] =
      Real.sqrt 2 := by
    simp only [H2.length]
    rw [hvx2, hvy2, hzz]
    exact congrArg Real.sqrt (by norm_num)
  refine ⟨hw1, hw2', hl1, hl2', ?_, ?_⟩
  · rw [hw1, hw2']
    exact sqrt_ne_sqrt (by norm_num) (by norm_num) (by norm_num)
  · rw [hl1, hl2']
    rw [show (1:ℝ) = Real.sqrt 1 from Real.sqrt_one.symm]
    exact sqrt_ne_sqrt (by norm_num) (by norm_num) (by norm_num)

/-- Claim C3, evaluated at a failing input: for the concrete two-pixel image
at coordinates (0,1), (1,2) with intensities 1, 1 (vxy = 1/4, not zero), the
major-axis line is y = x + 1, so a = 1 and b = 1, and hillas_parameters
returns miss = abs(b / (1 + a^2)) = 1/2, which differs from the claimed
abs(b) / sqrt(1 + a^2) = 1/sqrt(2): line 65 divides by 1 + a*a where the
perpendicular distance from the origin to the major axis divides by
sqrt(1 + a*a). -/
theorem hillas1_miss_divergence :
    H1.a ![(0:ℝ), 1] ![(1:ℝ), 2] ![(1:ℝ), 1] = 1 ∧
    H1.b ![(0:ℝ), 1] ![(1:ℝ), 2] ![(1:ℝ), 1] = 1 ∧
    H1.miss ![(0:ℝ), 1] ![(1:ℝ), 2] ![(1:ℝ), 1] = 1 / 2 ∧
    H1.miss ![(0:ℝ), 1] ![(1:ℝ), 2] ![(1:ℝ), 1] ≠
      |H1.b ![(0:ℝ), 1] ![(1:ℝ), 2] ![(1:ℝ), 1]| /
        Real.sqrt (1 + H1.a ![(0:ℝ), 1] ![(1:ℝ), 2] ![(1:ℝ), 1] ^ 2) := by
  have hmx : H1.m_x ![(0:ℝ), 1] ![(1:ℝ), 1] = 1 / 2 := by
    norm_num [H1.m_x, H1._s, Fin.sum_univ_two]
  have hmy : H1.m_y ![(1:ℝ), 2] ![(1:ℝ), 1] = 3 / 2 := by
    norm_num [H1.m_y, H1._s, Fin.sum_univ_two]
  have hmxx : H1.m_xx ![(0:ℝ), 1] ![(1:ℝ), 1] = 1 / 2 := by
    norm_num [H1.m_xx, H1._s, Fin.sum_univ_two]
  have hmyy : H1.m_yy ![(1:ℝ), 2] ![(1:ℝ), 1] = 5 / 2 := by
    norm_num [H1.m_yy, H1._s, Fin.sum_univ_two]
  have hmxy : H1.m_xy ![(0:ℝ), 1] ![(1:ℝ), 2] ![(1:ℝ), 1] = 1 := by
    norm_num [H1.m_xy, H1._s, Fin.sum_univ_two]
  have hSxx : H1.S_xx ![(0:ℝ), 1] ![(1:ℝ), 1] = 1 / 4 := by
    simp only [H1.S_xx]
    rw [hmxx, hmx]
    norm_num
  have hSyy : H1.S_yy ![(1:ℝ), 2] ![(1:ℝ), 1] = 1 / 4 := by
    simp only [H1.S_yy]
    rw [hmyy, hmy]
    norm_num
  have hSxy : H1.S_xy ![(0:ℝ), 1] ![(1:ℝ), 2] ![(1:ℝ), 1] = 1 / 4 := by
    simp only [H1.S_xy]
    rw [hmxy, hmx, hmy]
    norm_num
  have hd : H1.d ![(0:ℝ), 1] ![(1:ℝ), 2] ![(1:ℝ), 1] = 0 := by
    simp only [H1.d]
    rw [hSyy, hSxx]
    norm_num
  have htemp : H1.temp ![(0:ℝ), 1] ![(1:ℝ), 2] ![(1:ℝ), 1] = 1 / 4 := by
    simp only [H1.temp]
    rw [hd, hSxy]
    norm_num
  have ha : H1.a ![(0:ℝ), 1] ![(1:ℝ), 2] ![(1:ℝ), 1] = 1 := by
    simp only [H1.a]
    rw [hd, htemp, hSxy, sqrt_eval (b := 1 / 2) (by norm_num) (by norm_num)]
    norm_num
  have hb : H1.b ![(0:ℝ), 1] ![(1:ℝ), 2] ![(1:ℝ), 1] = 1 := by
    simp only [H1.b]
    rw [ha, hmx, hmy]
    norm_num
  have hmiss : H1.miss ![(0:ℝ), 1] ![(1:ℝ), 2] ![(1:ℝ), 1] = 1 / 2 := by
    simp only [H1.miss]
    rw [ha, hb]
    norm_num
  refine ⟨ha, hb, hmiss, ?_⟩
  rw [hmiss, ha, hb, abs_one, show (1:ℝ) + 1 ^ 2 = 2 by norm_num]
  intro h
  have hs2 : Real.sqrt 2 ^ 2 = 2 := Real.sq_sqrt (by norm_num)
  have hpos : 0 < Real.sqrt 2 := Real.sqrt_pos.mpr (by norm_num)
  rw [div_eq_div_iff (by norm_num) (ne_of_gt hpos)] at h
  nlinarith [hs2, hpos, h]

/-! Supplementary general theorems relating the two hillas implementations.
They show that the disagreement exhibited at the concrete inputs above is
systematic: wherever S_xy is nonzero, the second variant's width and length
are exactly sqrt(2) times the first variant's, and the second variant's miss
is exactly the perpendicular distance abs(b)/sqrt(1 + a^2) from the origin
to the major-axis line of the first variant, the quantity the first
variant's line 65 fails to compute. -/

theorem H2_size_as_H1 {n : ℕ} (s : Fin n → ℝ) : H2.size s = H1._s s := rfl

theorem H2_moms0_as_H1 {n : ℕ} (x s : Fin n → ℝ) :
    H2.moms0 x s = H1.m_x x s := by
  unfold H2.moms0 H1.m_x H2.size H1._s
  rw [Finset.sum_congr rfl fun i _ => mul_comm (x i) (s i)]

theorem H2_moms2_as_H1 {n : ℕ} (x s : Fin n → ℝ) :
    H2.moms2 x s = H1.m_xx x s := by
  unfold H2.moms2 H1.m_xx H2.size H1._s
  have h1 : ∀ i ∈ (Finset.univ : Finset (Fin n)),
      x i * x i * s i = s i * x i * x i := fun i _ => by ring
  rw [Finset.sum_congr rfl h1]

theorem H2_moms4_as_H1 {n : ℕ} (x y s : Fin n → ℝ) :
    H2.moms4 x y s = H1.m_xy x y s := by
  unfold H2.moms4 H1.m_xy H2.size H1._s
  have h1 : ∀ i ∈ (Finset.univ : Finset (Fin n)),
      x i * y i * s i = s i * x i * y i := fun i _ => by ring
  rw [Finset.sum_congr rfl h1]

theorem H2_vx2_as_H1 {n : ℕ} (x s : Fin n → ℝ) :
    H2.vx2 x s = H1.S_xx x s := by
  unfold H2.vx2 H1.S_xx
  rw [H2_moms2_as_H1, H2_moms0_as_H1]
  ring

theorem H2_vy2_as_H1 {n : ℕ} (y s : Fin n → ℝ) :
    H2.vy2 y s = H1.S_yy y s := by
  unfold H2.vy2 H1.S_yy
  rw [H2_moms3_as_moms2, H2_moms1_as_moms0, H2_moms2_as_H1, H2_moms0_as_H1,
    H1_m_yy_as_m_xx, H1_m_y_as_m_x]
  ring

theorem H2_vxy_as_H1 {n : ℕ} (x y s : Fin n → ℝ) :
    H2.vxy x y s = H1.S_xy x y s := by
  unfold H2.vxy H1.S_xy
  rw [H2_moms4_as_H1, H2_moms0_as_H1, H2_moms1_as_moms0, H2_moms0_as_H1,
    H1_m_y_as_m_x]

theorem H2_zz_as_H1 {n : ℕ} (x y s : Fin n → ℝ) :
    H2.zz x y s = Real.sqrt (H1.temp x y s) := by
  unfold H2.zz H2.dd H1.temp H1.d
  rw [H2_vx2_as_H1, H2_vy2_as_H1, H2_vxy_as_H1]
  exact congrArg Real.sqrt (by ring)

/-- Pure algebra: the two quadratic forms built from the major-axis slope
a = ((q - p) + z) / (2 r), with z = sqrt((q - p)^2 + 4 r^2), are the two
eigenvalues (p + q - z) / 2 and (p + q + z) / 2 of the covariance matrix
[[p, r], [r, q]]. -/
theorem eigen_width_div (p q r z a : ℝ) (hr : r ≠ 0)
    (hz2 : z ^ 2 = (q - p) ^ 2 + 4 * r ^ 2) (hz0 : 0 ≤ z)
    (ha : a = ((q - p) + z) / (2 * r)) :
    (q + a * a * p - 2 * a * r) / (1 + a * a) = (p + q - z) / 2 ∧
    (p + a * a * q + 2 * a * r) / (1 + a * a) = (p + q + z) / 2 := by
  have hr2 : 0 < r ^ 2 := by positivity
  have hd2 : (q - p) ^ 2 < z ^ 2 := by nlinarith
  have hzd : q - p < z := lt_of_pow_lt_pow_left₀ 2 hz0 hd2
  have hz : 0 < z := by nlinarith
  have hne1 : z - (q - p) ≠ 0 := ne_of_gt (by linarith)
  have h2r : (2 : ℝ) * r ≠ 0 := mul_ne_zero two_ne_zero hr
  have ha2 : a * a = (z + (q - p)) / (z - (q - p)) := by
    rw [ha, div_mul_div_comm, div_eq_div_iff (mul_ne_zero h2r h2r) hne1]
    linear_combination (z + (q - p)) * hz2
  have har : 2 * a * r = (q - p) + z := by
    rw [ha]
    field_simp
    ring
  have h1a : 1 + a * a = 2 * z / (z - (q - p)) := by
    rw [ha2]
    field_simp
    ring
  constructor
  · rw [h1a, har, ha2]
    rw [div_eq_div_iff (by positivity) (by norm_num : (2:ℝ) ≠ 0)]
    field_simp
    ring
  · rw [h1a, har, ha2]
    rw [div_eq_div_iff (by positivity) (by norm_num : (2:ℝ) ≠ 0)]
    field_simp
    ring

theorem H1_temp_nonneg {n : ℕ} (x y s : Fin n → ℝ) : 0 ≤ H1.temp x y s := by
  unfold H1.temp H1.d
  nlinarith [sq_nonneg (H1.S_yy y s - H1.S_xx x s), sq_nonneg (H1.S_xy x y s)]

theorem H1_sqrt_temp_sq {n : ℕ} (x y s : Fin n → ℝ) :
    Real.sqrt (H1.temp x y s) ^ 2 =
      (H1.S_yy y s - H1.S_xx x s) ^ 2 + 4 * H1.S_xy x y s ^ 2 := by
  rw [Real.sq_sqrt (H1_temp_nonneg x y s)]
  unfold H1.temp H1.d
  ring

theorem H1_width_2_closed_form {n : ℕ} (x y s : Fin n → ℝ)
    (hxy : H1.S_xy x y s ≠ 0) :
    H1.width_2 x y s =
      (H1.S_xx x s + H1.S_yy y s - Real.sqrt (H1.temp x y s)) / 2 ∧
    H1.length_2 x y s =
      (H1.S_xx x s + H1.S_yy y s + Real.sqrt (H1.temp x y s)) / 2 := by
  have h := eigen_width_div (H1.S_xx x s) (H1.S_yy y s) (H1.S_xy x y s)
    (Real.sqrt (H1.temp x y s)) (H1.a x y s) hxy (H1_sqrt_temp_sq x y s)
    (Real.sqrt_nonneg _) rfl
  exact h

/-- Wherever the linear-fit variant is non-degenerate (S_xy nonzero), the
width and length of hillas_parameters_2 are exactly sqrt(2) times those of
hillas_parameters, in exact real arithmetic: the claimed agreement of C1
fails systematically, not only at the concrete input above. -/
theorem hillas_width_length_ratio {n : ℕ} (x y s : Fin n → ℝ)
    (hxy : H1.S_xy x y s ≠ 0) :
    H2.width x y s = Real.sqrt 2 * H1.width x y s ∧
    H2.length x y s = Real.sqrt 2 * H1.length x y s := by
  obtain ⟨hw, hl⟩ := H1_width_2_closed_form x y s hxy
  constructor
  · unfold H2.width H1.width
    rw [H2_vx2_as_H1, H2_vy2_as_H1, H2_zz_as_H1, hw,
      ← Real.sqrt_mul (by norm_num : (0:ℝ) ≤ 2)]
    exact congrArg Real.sqrt (by ring)
  · unfold H2.length H1.length
    rw [H2_vx2_as_H1, H2_vy2_as_H1, H2_zz_as_H1, hl,
      ← Real.sqrt_mul (by norm_num : (0:ℝ) ≤ 2)]
    exact congrArg Real.sqrt (by ring)

/-- Pure algebra behind the moment form of miss: the radicand of lines
128-129 equals the squared perpendicular distance (m1 - a m0)^2 / (1 + a^2)
from the origin to the line of slope a = ((q - p) + z) / (2 r) through
(m0, m1). -/
theorem miss_form_algebra (p q r z a m0 m1 : ℝ) (hr : r ≠ 0)
    (hz2 : z ^ 2 = (q - p) ^ 2 + 4 * r ^ 2) (hz0 : 0 ≤ z)
    (ha : a = ((q - p) + z) / (2 * r)) :
    ((1 + (q - p) / z) * m0 ^ 2 + (2 - (1 + (q - p) / z)) * m1 ^ 2) / 2 -
      m0 * m1 * 2 * r / z = (m1 - a * m0) ^ 2 / (1 + a ^ 2) := by
  have hr2 : 0 < r ^ 2 := by positivity
  have hd2 : (q - p) ^ 2 < z ^ 2 := by nlinarith
  have hzd : q - p < z := lt_of_pow_lt_pow_left₀ 2 hz0 hd2
  have hz : 0 < z := by nlinarith
  have hzne : z ≠ 0 := ne_of_gt hz
  have hne1 : z - (q - p) ≠ 0 := ne_of_gt (by linarith)
  have h2r : (2 : ℝ) * r ≠ 0 := mul_ne_zero two_ne_zero hr
  have ha2 : a ^ 2 = (z + (q - p)) / (z - (q - p)) := by
    rw [pow_two, ha, div_mul_div_comm, div_eq_div_iff (mul_ne_zero h2r h2r) hne1]
    linear_combination (z + (q - p)) * hz2
  have h1a : 1 + a ^ 2 = 2 * z / (z - (q - p)) := by
    rw [ha2]
    field_simp
    ring
  have hazd : a * (z - (q - p)) = 2 * r := by
    rw [ha, div_mul_eq_mul_div, div_eq_iff h2r]
    linear_combination hz2
  rw [h1a, div_div_eq_mul_div]
  have hexp : (m1 - a * m0) ^ 2 * (z - (q - p)) =
      m1 ^ 2 * (z - (q - p)) - 2 * m0 * m1 * (a * (z - (q - p))) +
        m0 ^ 2 * (a ^ 2 * (z - (q - p))) := by ring
  have ha2zd : a ^ 2 * (z - (q - p)) = z + (q - p) := by
    rw [ha2, div_mul_cancel₀ _ hne1]
  rw [hexp, hazd, ha2zd]
  field_simp
  ring

/-- Wherever the linear-fit variant is non-degenerate (S_xy nonzero), the
miss of hillas_parameters_2 equals abs(b) / sqrt(1 + a^2), the perpendicular
distance from the origin to the major-axis line y = a x + b of
hillas_parameters, in exact real arithmetic: the formula claim C3 states is
what the second variant computes, while line 65 of the first divides by
1 + a^2 instead. -/
theorem hillas2_miss_closed_form {n : ℕ} (x y s : Fin n → ℝ)
    (hxy : H1.S_xy x y s ≠ 0) :
    H2.miss x y s = |H1.b x y s| / Real.sqrt (1 + H1.a x y s ^ 2) := by
  have key := miss_form_algebra (H1.S_xx x s) (H1.S_yy y s) (H1.S_xy x y s)
    (Real.sqrt (H1.temp x y s)) (H1.a x y s) (H1.m_x x s) (H1.m_x y s)
    hxy (H1_sqrt_temp_sq x y s) (Real.sqrt_nonneg _) rfl
  have harg : H2.miss x y s =
      Real.sqrt ((H1.m_x y s - H1.a x y s * H1.m_x x s) ^ 2 /
        (1 + H1.a x y s ^ 2)) := by
    unfold H2.miss H2.vv H2.uu H2.dd
    rw [H2_vx2_as_H1, H2_vy2_as_H1, H2_vxy_as_H1, H2_zz_as_H1,
      H2_moms0_as_H1, H2_moms1_as_moms0, H2_moms0_as_H1]
    exact congrArg Real.sqrt key
  rw [harg, Real.sqrt_div (sq_nonneg _), Real.sqrt_sq_eq_abs,
    show H1.b x y s = H1.m_x y s - H1.a x y s * H1.m_x x s from by
      unfold H1.b
      rw [H1_m_y_as_m_x]]

/-! In exact arithmetic, for nonnegative intensities, the width radicand
vx2 + vy2 - zz of line 133 is nonnegative (by the Cauchy-Schwarz inequality
vx2 * vy2 >= vxy^2 applied to the centred, intensity-weighted coordinates),
so a negative radicand can only arise from floating-point rounding. -/

theorem H2_vx2_central {n : ℕ} (pix_x image : Fin n → ℝ)
    (h : H2.size image ≠ 0) :
    H2.vx2 pix_x image * H2.size image =
      ∑ i, image i * (pix_x i - H2.moms0 pix_x image) ^ 2 := by
  have hm0 : H2.moms0 pix_x image * H2.size image = ∑ i, pix_x i * image i :=
    div_mul_cancel₀ _ h
  have hm2 : H2.moms2 pix_x image * H2.size image =
      ∑ i, pix_x i * pix_x i * image i := div_mul_cancel₀ _ h
  have hexp : ∀ i ∈ (Finset.univ : Finset (Fin n)),
      image i * (pix_x i - H2.moms0 pix_x image) ^ 2 =
        pix_x i * pix_x i * image i -
          (2 * H2.moms0 pix_x image) * (pix_x i * image i) +
          H2.moms0 pix_x image ^ 2 * image i := fun i _ => by ring
  rw [Finset.sum_congr rfl hexp, Finset.sum_add_distrib, Finset.sum_sub_distrib,
    ← Finset.mul_sum, ← Finset.mul_sum]
  unfold H2.vx2
  show _ = _ - _ + H2.moms0 pix_x image ^ 2 * H2.size image
  linear_combination hm2 - 2 * H2.moms0 pix_x image * hm0

theorem H2_vxy_central {n : ℕ} (pix_x pix_y image : Fin n → ℝ)
    (h : H2.size image ≠ 0) :
    H2.vxy pix_x pix_y image * H2.size image =
      ∑ i, image i * ((pix_x i - H2.moms0 pix_x image) *
        (pix_y i - H2.moms1 pix_y image)) := by
  have hm0 : H2.moms0 pix_x image * H2.size image = ∑ i, pix_x i * image i :=
    div_mul_cancel₀ _ h
  have hm1 : H2.moms1 pix_y image * H2.size image = ∑ i, pix_y i * image i :=
    div_mul_cancel₀ _ h
  have hm4 : H2.moms4 pix_x pix_y image * H2.size image =
      ∑ i, pix_x i * pix_y i * image i := div_mul_cancel₀ _ h
  have hexp : ∀ i ∈ (Finset.univ : Finset (Fin n)),
      image i * ((pix_x i - H2.moms0 pix_x image) *
          (pix_y i - H2.moms1 pix_y image)) =
        pix_x i * pix_y i * image i -
          H2.moms1 pix_y image * (pix_x i * image i) -
          H2.moms0 pix_x image * (pix_y i * image i) +
          H2.moms0 pix_x image * H2.moms1 pix_y image * image i :=
    fun i _ => by ring
  rw [Finset.sum_congr rfl hexp, Finset.sum_add_distrib, Finset.sum_sub_distrib,
    Finset.sum_sub_distrib, ← Finset.mul_sum, ← Finset.mul_sum, ← Finset.mul_sum]
  unfold H2.vxy
  show _ = _ - _ - _ +
    H2.moms0 pix_x image * H2.moms1 pix_y image * H2.size image
  linear_combination hm4 - H2.moms1 pix_y image * hm0 - H2.moms0 pix_x image * hm1

theorem H2_width_radicand_nonneg {n : ℕ} (pix_x pix_y image : Fin n → ℝ)
    (hnn : ∀ i, 0 ≤ image i) :
    0 ≤ H2.vx2 pix_x image + H2.vy2 pix_y image - H2.zz pix_x pix_y image := by
  rcases eq_or_ne (H2.size image) 0 with hS | hS
  · simp [H2.vx2, H2.vy2, H2.zz, H2.dd, H2.vxy, H2.moms0, H2.moms1, H2.moms2,
      H2.moms3, H2.moms4, hS]
  · have hSpos : 0 < H2.size image :=
      lt_of_le_of_ne (Finset.sum_nonneg fun i _ => hnn i) (Ne.symm hS)
    have hvx2S := H2_vx2_central pix_x image hS
    have hvy2S : H2.vy2 pix_y image * H2.size image =
        ∑ i, image i * (pix_y i - H2.moms1 pix_y image) ^ 2 := by
      rw [show H2.vy2 pix_y image = H2.vx2 pix_y image from by
        unfold H2.vy2 H2.vx2
        rw [H2_moms3_as_moms2, H2_moms1_as_moms0],
        show H2.moms1 pix_y image = H2.moms0 pix_y image from rfl]
      exact H2_vx2_central pix_y image hS
    have hvxyS := H2_vxy_central pix_x pix_y image hS
    have hvx2nn : 0 ≤ H2.vx2 pix_x image := by
      have h1 : 0 ≤ ∑ i, image i * (pix_x i - H2.moms0 pix_x image) ^ 2 :=
        Finset.sum_nonneg fun i _ => mul_nonneg (hnn i) (sq_nonneg _)
      nlinarith [hvx2S, hSpos]
    have hvy2nn : 0 ≤ H2.vy2 pix_y image := by
      have h1 : 0 ≤ ∑ i, image i * (pix_y i - H2.moms1 pix_y image) ^ 2 :=
        Finset.sum_nonneg fun i _ => mul_nonneg (hnn i) (sq_nonneg _)
      nlinarith [hvy2S, hSpos]
    have hcs0 := Finset.sum_mul_sq_le_sq_mul_sq Finset.univ
      (fun i => Real.sqrt (image i) * (pix_x i - H2.moms0 pix_x image))
      (fun i => Real.sqrt (image i) * (pix_y i - H2.moms1 pix_y image))
    have e1 : ∀ i ∈ (Finset.univ : Finset (Fin n)),
        (Real.sqrt (image i) * (pix_x i - H2.moms0 pix_x image)) *
          (Real.sqrt (image i) * (pix_y i - H2.moms1 pix_y image)) =
        image i * ((pix_x i - H2.moms0 pix_x image) *
          (pix_y i - H2.moms1 pix_y image)) := fun i _ => by
      rw [show (Real.sqrt (image i) * (pix_x i - H2.moms0 pix_x image)) *
            (Real.sqrt (image i) * (pix_y i - H2.moms1 pix_y image)) =
          (Real.sqrt (image i) * Real.sqrt (image i)) *
            ((pix_x i - H2.moms0 pix_x image) *
              (pix_y i - H2.moms1 pix_y image)) from by ring,
        Real.mul_self_sqrt (hnn i)]
    have e2 : ∀ i ∈ (Finset.univ : Finset (Fin n)),
        (Real.sqrt (image i) * (pix_x i - H2.moms0 pix_x image)) ^ 2 =
        image i * (pix_x i - H2.moms0 pix_x image) ^ 2 := fun i _ => by
      rw [mul_pow, Real.sq_sqrt (hnn i)]
    have e3 : ∀ i ∈ (Finset.univ : Finset (Fin n)),
        (Real.sqrt (image i) * (pix_y i - H2.moms1 pix_y image)) ^ 2 =
        image i * (pix_y i - H2.moms1 pix_y image) ^ 2 := fun i _ => by
      rw [mul_pow, Real.sq_sqrt (hnn i)]
    rw [Finset.sum_congr rfl e1, Finset.sum_congr rfl e2,
      Finset.sum_congr rfl e3, ← hvx2S, ← hvy2S, ← hvxyS] at hcs0
    have hCS : H2.vxy pix_x pix_y image ^ 2 ≤
        H2.vx2 pix_x image * H2.vy2 pix_y image := by
      nlinarith [hcs0, mul_pos hSpos hSpos]
    have hsum_nn : 0 ≤ H2.vx2 pix_x image + H2.vy2 pix_y image :=
      add_nonneg hvx2nn hvy2nn
    have hzzle : H2.zz pix_x pix_y image ≤
        H2.vx2 pix_x image + H2.vy2 pix_y image := by
      unfold H2.zz H2.dd
      calc Real.sqrt ((H2.vy2 pix_y image - H2.vx2 pix_x image) ^ 2 +
              4 * H2.vxy pix_x pix_y image ^ 2) ≤
          Real.sqrt ((H2.vx2 pix_x image + H2.vy2 pix_y image) ^ 2) :=
            Real.sqrt_le_sqrt (by nlinarith [hCS])
        _ = H2.vx2 pix_x image + H2.vy2 pix_y image := Real.sqrt_sq hsum_nn
    linarith

end HillasTheorems

end Ctapipe
